import Mathlib

/-!
# Verification of the tabular aggregation pipeline of `translate-sql.py`

This file embeds, as Lean definitions, the data-wrangling pipeline that the
source script expresses three times (direct pandas operations at
`repayments_proc`, a second pandas `aggregate` variant, and a siuba
verb-chained variant), together with the declarative statement forms built
with SQLAlchemy (`agg_stmt`, `rownum_stmt`) and the column projections
(`loans_fn`, `repayments_fn`), and proves the spec's claims about them.

Conventions of the embedding:
* a dataframe is a `List` of typed row structures, in row order;
* CSV dates (ISO-format strings in the source data, compared
  lexicographically by the pandas `max` aggregate) are encoded as their
  `yyyymmdd` numeral, an order-isomorphic encoding: the date
  `2021-02-01` is the `Nat` `20210201`;
* monetary amounts that are averaged are `Rat` (pandas computes float means);
* `pd.merge(..., on="loanId")` with the default join kind is an inner join
  that preserves the order of the left keys and, per left row, the right
  rows' order; the overlapping column `status` is suffixed `status_x`
  (loan side) / `status_y` (repayment side);
* `sort_values(by=["loanId", "scheduleOrder"])` on several columns is a
  stable lexicographic sort (pandas uses `lexsort` for multi-key sorts),
  embedded as `List.insertionSort` with the corresponding total preorder;
* `groupby` of a list sorted by the group key partitions it into contiguous
  runs, each represented by its head row and the remaining rows.
-/

namespace TranslateSql

/-- One row of the loans table after the column selection
`loans_fn = loans_raw[loan_cols]` (the 13 columns of `loan_cols`). -/
structure Loan where
  loanId : Nat
  loanAmount : Rat
  loanType : String
  lateFees : Rat
  interestSavings : Rat
  addStatementFee : Rat
  disbursedOverpaidAmount : Rat
  repaymentDate : Nat
  status : String
  disbursementDate : Nat
  duration : Nat
  interestRate : Rat
  customerId : Nat
deriving DecidableEq

/-- One row of the repayments table after the column selection
`repayments_fn = repayments_raw[repayment_cols]`. -/
structure Repayment where
  scheduleOrder : Int
  totalPaymentWithinSchedule : Int
  repaidDate : Nat
  loanId : Nat
  status : String
deriving DecidableEq

/-- The row-wise combination produced by
`pd.merge(left=loans_fn, right=repayments_fn, on="loanId")`: all loan
columns, then all repayment columns, with the overlapping `status` column
suffixed `status_x` (loan side) and `status_y` (repayment side). -/
structure JoinedRow where
  loanId : Nat
  loanAmount : Rat
  loanType : String
  lateFees : Rat
  interestSavings : Rat
  addStatementFee : Rat
  disbursedOverpaidAmount : Rat
  repaymentDate : Nat
  status_x : String
  disbursementDate : Nat
  duration : Nat
  interestRate : Rat
  customerId : Nat
  scheduleOrder : Int
  totalPaymentWithinSchedule : Int
  repaidDate : Nat
  status_y : String
deriving DecidableEq

/-- Combine one loan row with one matching repayment row. -/
def mkJoined (l : Loan) (r : Repayment) : JoinedRow where
  loanId := l.loanId
  loanAmount := l.loanAmount
  loanType := l.loanType
  lateFees := l.lateFees
  interestSavings := l.interestSavings
  addStatementFee := l.addStatementFee
  disbursedOverpaidAmount := l.disbursedOverpaidAmount
  repaymentDate := l.repaymentDate
  status_x := l.status
  disbursementDate := l.disbursementDate
  duration := l.duration
  interestRate := l.interestRate
  customerId := l.customerId
  scheduleOrder := r.scheduleOrder
  totalPaymentWithinSchedule := r.totalPaymentWithinSchedule
  repaidDate := r.repaidDate
  status_y := r.status

/-- `pd.merge(left=loans_fn, right=repayments_fn, on="loanId")` with the
default (inner) join kind: for each loan row in order, all repayment rows
with an equal `loanId`, in their order. -/
def innerJoin (loans : List Loan) (reps : List Repayment) : List JoinedRow :=
  loans.flatMap fun l => (reps.filter fun r => r.loanId == l.loanId).map (mkJoined l)

/-- The lexicographic "sort by `(k₁, k₂)` ascending" total preorder used by
`sort_values(by=["loanId", "scheduleOrder"])` and by
`arrange(_.loanId, _.scheduleOrder)`. -/
def keyLe {α : Type*} {β : Type*} [LinearOrder β] (k₁ : α → Nat) (k₂ : α → β)
    (a b : α) : Prop :=
  k₁ a < k₁ b ∨ (k₁ a = k₁ b ∧ k₂ a ≤ k₂ b)

instance keyLeDecidable {α : Type*} {β : Type*} [LinearOrder β] (k₁ : α → Nat)
    (k₂ : α → β) : DecidableRel (keyLe k₁ k₂) := fun a b =>
  inferInstanceAs (Decidable (_ ∨ _))

instance keyLe_isTotal {α : Type*} {β : Type*} [LinearOrder β] (k₁ : α → Nat)
    (k₂ : α → β) : IsTotal α (keyLe k₁ k₂) := by
  constructor
  intro a b
  rcases lt_trichotomy (k₁ a) (k₁ b) with h | h | h
  · exact Or.inl (Or.inl h)
  · rcases le_total (k₂ a) (k₂ b) with h2 | h2
    · exact Or.inl (Or.inr ⟨h, h2⟩)
    · exact Or.inr (Or.inr ⟨h.symm, h2⟩)
  · exact Or.inr (Or.inl h)

instance keyLe_isTrans {α : Type*} {β : Type*} [LinearOrder β] (k₁ : α → Nat)
    (k₂ : α → β) : IsTrans α (keyLe k₁ k₂) := by
  constructor
  intro a b c hab hbc
  rcases hab with h | ⟨e, h2⟩
  · rcases hbc with h' | ⟨e', h2'⟩
    · exact Or.inl (h.trans h')
    · exact Or.inl (e' ▸ h)
  · rcases hbc with h' | ⟨e', h2'⟩
    · exact Or.inl (e ▸ h')
    · exact Or.inr ⟨e.trans e', h2.trans h2'⟩

/-- `.sort_values(by=["loanId", "scheduleOrder"])` on the joined frame: a
stable sort by `(loanId, scheduleOrder)` ascending. -/
def sortJoined (l : List JoinedRow) : List JoinedRow :=
  l.insertionSort (keyLe JoinedRow.loanId JoinedRow.scheduleOrder)

/-- `.groupby(by=key)` over a frame already sorted by `key`: partition into
maximal contiguous runs sharing the key, each run given as its head row
paired with the remaining rows of the run. -/
def groupPairs {α : Type*} (key : α → Nat) : List α → List (α × List α)
  | [] => []
  | x :: xs =>
    match groupPairs key xs with
    | [] => [(x, [])]
    | (h, g) :: t => if key h == key x then (x, h :: g) :: t else (x, []) :: (h, g) :: t

/-- The output schema of `repayments_proc`: the `loanId` group key followed
by the five named aggregate columns, in the order they are written. -/
structure SummaryRow where
  loanId : Nat
  repaidDate : Nat
  totalPaymentWithinSchedule : Int
  loanAmount : Rat
  scheduleOrder : Int
  status : String
deriving DecidableEq

/-- The `.aggregate(...)` of `repayments_proc` applied to one group
`x :: g`: `max` of `repaidDate`, `sum` of `totalPaymentWithinSchedule`,
`first` of `loanAmount`, `last` of `scheduleOrder`, `last` of `status_y`. -/
def summarize (x : JoinedRow) (g : List JoinedRow) : SummaryRow where
  loanId := x.loanId
  repaidDate := g.foldl (fun acc y => max acc y.repaidDate) x.repaidDate
  totalPaymentWithinSchedule :=
    x.totalPaymentWithinSchedule + (g.map JoinedRow.totalPaymentWithinSchedule).sum
  loanAmount := x.loanAmount
  scheduleOrder := (g.getLastD x).scheduleOrder
  status := (g.getLastD x).status_y

/-- The full pandas pipeline `repayments_proc`:
merge on `loanId`, sort by `(loanId, scheduleOrder)`, group by `loanId`,
aggregate each group with `summarize`. -/
def repayments_proc (loans : List Loan) (reps : List Repayment) : List SummaryRow :=
  (groupPairs JoinedRow.loanId (sortJoined (innerJoin loans reps))).map fun p =>
    summarize p.1 p.2

/-- The `.aggregate(...)` of the second pandas variant (the cell repeated
under "Option 2: Siuba"): identical to `summarize` except that
`loanAmount` is reduced with `mean` and `status` with `first` of
`status_y`. -/
def summarizeAgg2 (x : JoinedRow) (g : List JoinedRow) : SummaryRow where
  loanId := x.loanId
  repaidDate := g.foldl (fun acc y => max acc y.repaidDate) x.repaidDate
  totalPaymentWithinSchedule :=
    x.totalPaymentWithinSchedule + (g.map JoinedRow.totalPaymentWithinSchedule).sum
  loanAmount := (x.loanAmount + (g.map JoinedRow.loanAmount).sum) / (g.length + 1 : Rat)
  scheduleOrder := (g.getLastD x).scheduleOrder
  status := x.status_y

/-- The second pandas pipeline variant: same merge, sort and group-by as
`repayments_proc`, aggregated with `summarizeAgg2`. -/
def repayments_agg2 (loans : List Loan) (reps : List Repayment) : List SummaryRow :=
  (groupPairs JoinedRow.loanId (sortJoined (innerJoin loans reps))).map fun p =>
    summarizeAgg2 p.1 p.2

/-- The row type of `siuba.left_join(loans_fn, repayments_fn, on="loanId")`:
loan columns are always present, repayment columns are nullable (a loan
with no matching repayment yields one row with nulls on the repayment
side). -/
structure JoinedRowL where
  loanId : Nat
  loanAmount : Rat
  loanType : String
  lateFees : Rat
  interestSavings : Rat
  addStatementFee : Rat
  disbursedOverpaidAmount : Rat
  repaymentDate : Nat
  status_x : String
  disbursementDate : Nat
  duration : Nat
  interestRate : Rat
  customerId : Nat
  scheduleOrder : Option Int
  totalPaymentWithinSchedule : Option Int
  repaidDate : Option Nat
  status_y : Option String
deriving DecidableEq

/-- Combine one loan row with one matching repayment row (left join,
matched case). -/
def mkJoinedL (l : Loan) (r : Repayment) : JoinedRowL where
  loanId := l.loanId
  loanAmount := l.loanAmount
  loanType := l.loanType
  lateFees := l.lateFees
  interestSavings := l.interestSavings
  addStatementFee := l.addStatementFee
  disbursedOverpaidAmount := l.disbursedOverpaidAmount
  repaymentDate := l.repaymentDate
  status_x := l.status
  disbursementDate := l.disbursementDate
  duration := l.duration
  interestRate := l.interestRate
  customerId := l.customerId
  scheduleOrder := some r.scheduleOrder
  totalPaymentWithinSchedule := some r.totalPaymentWithinSchedule
  repaidDate := some r.repaidDate
  status_y := some r.status

/-- A loan row with no matching repayment: nulls on the repayment side. -/
def mkJoinedNone (l : Loan) : JoinedRowL where
  loanId := l.loanId
  loanAmount := l.loanAmount
  loanType := l.loanType
  lateFees := l.lateFees
  interestSavings := l.interestSavings
  addStatementFee := l.addStatementFee
  disbursedOverpaidAmount := l.disbursedOverpaidAmount
  repaymentDate := l.repaymentDate
  status_x := l.status
  disbursementDate := l.disbursementDate
  duration := l.duration
  interestRate := l.interestRate
  customerId := l.customerId
  scheduleOrder := none
  totalPaymentWithinSchedule := none
  repaidDate := none
  status_y := none

/-- `siuba.left_join(right=repayments_fn, on="loanId")`: every loan row
appears; matched rows carry the repayment columns, unmatched loans yield
one row with nulled repayment columns. -/
def leftJoin (loans : List Loan) (reps : List Repayment) : List JoinedRowL :=
  loans.flatMap fun l =>
    match reps.filter fun r => r.loanId == l.loanId with
    | [] => [mkJoinedNone l]
    | ms => ms.map (mkJoinedL l)

/-- Secondary sort key for `arrange(_.loanId, _.scheduleOrder)` on the
left-joined frame: null (`NaN`) sorts last. -/
def schedKey (j : JoinedRowL) : WithTop Int :=
  j.scheduleOrder.elim ⊤ fun n => (n : WithTop Int)

/-- `arrange(_.loanId, _.scheduleOrder)` on the left-joined frame. -/
def sortJoinedL (l : List JoinedRowL) : List JoinedRowL :=
  l.insertionSort (keyLe JoinedRowL.loanId schedKey)

/-- The output schema of the siuba `summarize(...)` call: group key
`loanId`, then the five named summary columns in source order. -/
structure SummaryRowS where
  loanId : Nat
  repay_date : Option Nat
  total_pay : Int
  loan_amt : Rat
  status : Option String
  schedule_order : Option Int
deriving DecidableEq

/-- The siuba `summarize(...)` applied to one group `x :: g`:
`repaidDate.max()` (null-skipping, null on an all-null group),
`totalPaymentWithinSchedule.sum()` (null-skipping, 0 on an all-null
group), `loanAmount.mean()`, `status_y.head(1)` (the first row's value),
`scheduleOrder.tail(1)` (the last row's value). -/
def summarizeS (x : JoinedRowL) (g : List JoinedRowL) : SummaryRowS where
  loanId := x.loanId
  repay_date := ((x :: g).filterMap JoinedRowL.repaidDate).max?
  total_pay := ((x :: g).filterMap JoinedRowL.totalPaymentWithinSchedule).sum
  loan_amt := (x.loanAmount + (g.map JoinedRowL.loanAmount).sum) / (g.length + 1 : Rat)
  status := x.status_y
  schedule_order := (g.getLastD x).scheduleOrder

/-- The siuba verb-chained pipeline variant:
`left_join ... >> arrange(...) >> group_by(_.loanId) >> summarize(...)`. -/
def siubaProc (loans : List Loan) (reps : List Repayment) : List SummaryRowS :=
  (groupPairs JoinedRowL.loanId (sortJoinedL (leftJoin loans reps))).map fun p =>
    summarizeS p.1 p.2

/-- The fields with a shared meaning across the three pipeline variants,
nullable where the left-join variant can produce nulls; used to compare
their outputs row by row. -/
structure CommonRow where
  loanId : Nat
  repaidDate : Option Nat
  totalPayment : Int
  loanAmount : Rat
  scheduleOrder : Option Int
  status : Option String
deriving DecidableEq

/-- View a `SummaryRow` (pandas variants) as a `CommonRow`. -/
def SummaryRow.toCommon (s : SummaryRow) : CommonRow where
  loanId := s.loanId
  repaidDate := some s.repaidDate
  totalPayment := s.totalPaymentWithinSchedule
  loanAmount := s.loanAmount
  scheduleOrder := some s.scheduleOrder
  status := some s.status

/-- View a `SummaryRowS` (siuba variant) as a `CommonRow`. -/
def SummaryRowS.toCommon (s : SummaryRowS) : CommonRow where
  loanId := s.loanId
  repaidDate := s.repay_date
  totalPayment := s.total_pay
  loanAmount := s.loan_amt
  scheduleOrder := s.schedule_order
  status := s.status

/-- The columns on which the three variants use the same reducer:
`loanId`, `max(repaidDate)`, `sum(totalPaymentWithinSchedule)` and the
last `scheduleOrder` (they disagree on `loanAmount` and `status`). -/
structure CoreRow where
  loanId : Nat
  repaidDate : Option Nat
  totalPayment : Int
  scheduleOrder : Option Int
deriving DecidableEq

/-- Core-column view of a `SummaryRow`. -/
def SummaryRow.core (s : SummaryRow) : CoreRow where
  loanId := s.loanId
  repaidDate := some s.repaidDate
  totalPayment := s.totalPaymentWithinSchedule
  scheduleOrder := some s.scheduleOrder

/-- Core-column view of a `SummaryRowS`. -/
def SummaryRowS.core (s : SummaryRowS) : CoreRow where
  loanId := s.loanId
  repaidDate := s.repay_date
  totalPayment := s.total_pay
  scheduleOrder := s.schedule_order

/-- Output schema of the aggregate statement `agg_stmt`: the group key and
its two aggregate expressions `max(repayments.repaidDate)` and
`sum(repayments.totalPaymentWithinSchedule)`. -/
structure AggRow where
  loanId : Nat
  maxRepaidDate : Option Nat
  sumPayment : Int
deriving DecidableEq

/-- The informal semantics of the SQLAlchemy statement `agg_stmt`, read
declaratively as the spec describes it: join `loans` and `repayments` on
equal `loanId`, group by `loanId`, and output, for each distinct `loanId`
of the join in ascending order, `max(repaidDate)` and
`sum(totalPaymentWithinSchedule)` over that group. -/
def aggStmtDenote (loans : List Loan) (reps : List Repayment) : List AggRow :=
  (((innerJoin loans reps).map JoinedRow.loanId).dedup.insertionSort (· ≤ ·)).map fun k =>
    { loanId := k
      maxRepaidDate := (((innerJoin loans reps).filter fun y => y.loanId == k).map
        JoinedRow.repaidDate).max?
      sumPayment := (((innerJoin loans reps).filter fun y => y.loanId == k).map
        JoinedRow.totalPaymentWithinSchedule).sum }

/-- The aggregate columns of a pipeline `SummaryRow`, for comparison with
`agg_stmt`'s output. -/
def SummaryRow.toAgg (s : SummaryRow) : AggRow where
  loanId := s.loanId
  maxRepaidDate := some s.repaidDate
  sumPayment := s.totalPaymentWithinSchedule

/-- The "order by `loanAmount` descending" relation of `rownum_stmt`. -/
def amountDesc (a b : Loan) : Prop :=
  b.loanAmount ≤ a.loanAmount

instance amountDescDecidable : DecidableRel amountDesc := fun a b =>
  inferInstanceAs (Decidable (_ ≤ _))

/-- Modelled from the spec: the execution semantics of the window statement
`rownum_stmt` — `ROW_NUMBER() OVER (PARTITION BY loanId ORDER BY
loanAmount DESC)` — which the source only constructs and prints (no
executor for it exists in the repository). Spec §4.3: "for each partition
(grouping key), sort by the ranking key, assign 1..k". This gives the
partition of a given `loanId`, each row paired with its assigned rank. -/
def rownumPartition (loans : List Loan) (k : Nat) : List (Loan × Nat) :=
  let part := (loans.filter fun l => l.loanId == k).insertionSort amountDesc
  part.zip (List.range' 1 part.length)

/-- An atomic cell value of the generic column-oriented table model. -/
inductive Value where
  | int (i : Int)
  | rat (q : Rat)
  | nat (n : Nat)
  | str (s : String)
  | null
deriving DecidableEq

/-- A column-oriented table: named columns, in order. -/
abbrev Table := List (String × List Value)

/-- The error pandas raises (`KeyError`) when a projected column is
missing; the spec calls it `ColumnNotFoundError`. -/
inductive ProjError where
  | ColumnNotFoundError
deriving DecidableEq

/-- Column projection `table[column_names]` as in
`loans_fn = loans_raw[loan_cols]` and
`repayments_fn = repayments_raw[repayment_cols]`: return the named columns
in the given order, or fail if any name is missing. -/
def projectCols (t : Table) : List String → Except ProjError Table
  | [] => .ok []
  | n :: ns =>
    match t.find? fun c => c.1 == n with
    | none => .error .ColumnNotFoundError
    | some c =>
      match projectCols t ns with
      | .error e => .error e
      | .ok cs => .ok (c :: cs)

/-- The `loan_cols` column list of the source. -/
def loan_cols : List String :=
  ["loanId", "loanAmount", "loanType", "lateFees", "interestSavings",
   "addStatementFee", "disbursedOverpaidAmount", "repaymentDate", "status",
   "disbursementDate", "duration", "interestRate", "customerId"]

/-- The `repayment_cols` column list of the source. -/
def repayment_cols : List String :=
  ["scheduleOrder", "totalPaymentWithinSchedule", "repaidDate", "loanId", "status"]

/-- The loan of the spec's worked scenario: `loanId=1`, `loanAmount=100`
(remaining columns are immaterial to the scenario and filled with
placeholder values). -/
def scenarioLoan : Loan where
  loanId := 1
  loanAmount := 100
  loanType := "personal"
  lateFees := 0
  interestSavings := 0
  addStatementFee := 0
  disbursedOverpaidAmount := 0
  repaymentDate := 20210601
  status := "active"
  disbursementDate := 20201201
  duration := 6
  interestRate := 1
  customerId := 7

/-- First repayment of the scenario:
`(loanId=1, scheduleOrder=1, totalPaymentWithinSchedule=50, repaidDate=2021-01-01)`. -/
def scenarioRep1 : Repayment where
  scheduleOrder := 1
  totalPaymentWithinSchedule := 50
  repaidDate := 20210101
  loanId := 1
  status := "paid"

/-- Second repayment of the scenario:
`(loanId=1, scheduleOrder=2, totalPaymentWithinSchedule=30, repaidDate=2021-02-01)`. -/
def scenarioRep2 : Repayment where
  scheduleOrder := 2
  totalPaymentWithinSchedule := 30
  repaidDate := 20210201
  loanId := 1
  status := "paid"

/-- A second repayment with the same `(loanId, scheduleOrder)` sort keys as
`scenarioRep1` but a different payment, to exercise sort stability on a
tie. -/
def scenarioRep1b : Repayment where
  scheduleOrder := 1
  totalPaymentWithinSchedule := 99
  repaidDate := 20210115
  loanId := 1
  status := "late"

/-- A first repayment whose status differs from the second one's, to
exercise the `first` vs `last` status reducers. -/
def scenarioRepLate : Repayment where
  scheduleOrder := 1
  totalPaymentWithinSchedule := 50
  repaidDate := 20210101
  loanId := 1
  status := "late"

/-- View an inner-join row as a left-join row (all repayment columns
present); the image of the inner join under this map is the left join
whenever every loan has a matching repayment. -/
def JoinedRow.toL (j : JoinedRow) : JoinedRowL where
  loanId := j.loanId
  loanAmount := j.loanAmount
  loanType := j.loanType
  lateFees := j.lateFees
  interestSavings := j.interestSavings
  addStatementFee := j.addStatementFee
  disbursedOverpaidAmount := j.disbursedOverpaidAmount
  repaymentDate := j.repaymentDate
  status_x := j.status_x
  disbursementDate := j.disbursementDate
  duration := j.duration
  interestRate := j.interestRate
  customerId := j.customerId
  scheduleOrder := some j.scheduleOrder
  totalPaymentWithinSchedule := some j.totalPaymentWithinSchedule
  repaidDate := some j.repaidDate
  status_y := some j.status_y

/-- A small concrete table for exercising column projection. -/
def sampleTable : Table :=
  [("loanId", [Value.nat 1, Value.nat 2]),
   ("loanAmount", [Value.rat 100, Value.rat 250]),
   ("status", [Value.str "active", Value.str "closed"])]

/-! ## Helper lemmas -/

theorem keyLe_refl {α : Type*} {β : Type*} [LinearOrder β] (k₁ : α → Nat)
    (k₂ : α → β) (a : α) : keyLe k₁ k₂ a a :=
  Or.inr ⟨rfl, le_refl _⟩

/-- Unfolding of `groupPairs` on a cons: the head group is the maximal run
of rows whose key equals the head's, the remaining groups come from the
rest of the list. -/
theorem groupPairs_cons {α : Type*} (key : α → Nat) (x : α) (xs : List α) :
    groupPairs key (x :: xs) =
      (x, xs.takeWhile fun y => key y == key x) ::
        groupPairs key (xs.dropWhile fun y => key y == key x) := by
  induction xs generalizing x with
  | nil => rfl
  | cons y ys ih =>
    show (match groupPairs key (y :: ys) with
      | [] => [(x, [])]
      | (h, g) :: t =>
        if key h == key x then (x, h :: g) :: t else (x, []) :: (h, g) :: t) = _
    rw [ih y]
    by_cases hxy : key y == key x
    · have hk : key y = key x := by simpa using hxy
      have hpred : (fun z => key z == key y) = fun z => key z == key x := by
        funext z
        rw [hk]
      simp only [hpred, if_pos hxy, List.takeWhile_cons, List.dropWhile_cons, hxy, if_pos]
    · simp only [List.takeWhile_cons, List.dropWhile_cons, hxy, Bool.false_eq_true, if_false]
      rw [ih y]

/-- The suffix left by `dropWhile` is shorter than the original cons. -/
theorem dropWhile_length_lt_cons {α : Type*} (p : α → Bool) (x : α) (xs : List α) :
    (xs.dropWhile p).length < (x :: xs).length :=
  Nat.lt_succ_of_le (List.dropWhile_suffix p).sublist.length_le

/-- All rows of a group share the key of the group's head row. -/
theorem groupPairs_mem_key {α : Type*} (key : α → Nat) : (l : List α) →
    ∀ p ∈ groupPairs key l, ∀ y ∈ p.2, key y = key p.1
  | [] => by simp [groupPairs]
  | x :: xs => by
    rw [groupPairs_cons]
    intro p hp
    rcases List.mem_cons.mp hp with h | h
    · subst h
      intro y hy
      simpa using List.mem_takeWhile_imp hy
    · exact groupPairs_mem_key key (xs.dropWhile _) p h
termination_by l => l.length
decreasing_by exact dropWhile_length_lt_cons _ x xs

/-- Each group is a contiguous segment of the grouped list. -/
theorem groupPairs_segment {α : Type*} (key : α → Nat) : (l : List α) →
    ∀ p ∈ groupPairs key l, (p.1 :: p.2) <:+: l
  | [] => by simp [groupPairs]
  | x :: xs => by
    rw [groupPairs_cons]
    intro p hp
    rcases List.mem_cons.mp hp with h | h
    · subst h
      exact (List.cons_prefix_cons.mpr ⟨rfl, List.takeWhile_prefix _⟩).isInfix
    · exact List.infix_cons
        ((groupPairs_segment key _ p h).trans (List.dropWhile_suffix _).isInfix)
termination_by l => l.length
decreasing_by exact dropWhile_length_lt_cons _ x xs

/-- If everything that survives `dropWhile p` fails `p`, then `takeWhile p`
and `filter p` coincide. -/
theorem takeWhile_eq_filter {α : Type*} (p : α → Bool) (xs : List α)
    (h : ∀ y ∈ xs.dropWhile p, ¬p y = true) :
    xs.takeWhile p = xs.filter p := by
  conv_rhs => rw [← List.takeWhile_append_dropWhile (p := p) (l := xs)]
  rw [List.filter_append, List.filter_eq_self.mpr fun a ha => List.mem_takeWhile_imp ha,
    List.filter_eq_nil_iff.mpr h, List.append_nil]

/-- In a list whose keys are nondecreasing, every row surviving
`dropWhile (key · == key x)` has a key strictly greater than `key x`,
provided `key x` is a lower bound for the list. -/
theorem dropWhile_keys_gt {α : Type*} (key : α → Nat) (x : α) (xs : List α)
    (hsx : ∀ y ∈ xs, key x ≤ key y)
    (hs : List.Pairwise (fun a b => key a ≤ key b) xs) :
    ∀ y ∈ xs.dropWhile fun y => key y == key x, key x < key y := by
  intro y hy
  cases hd : xs.dropWhile fun y => key y == key x with
  | nil =>
    rw [hd] at hy
    cases hy
  | cons z d =>
    have hzx : ¬(key z == key x) = true := by
      have hne : xs.dropWhile (fun y => key y == key x) ≠ [] := by
        rw [hd]
        exact List.cons_ne_nil z d
      have := List.head_dropWhile_not (fun y => key y == key x) xs hne
      simpa [hd] using this
    have hsub : List.Sublist (z :: d) xs := hd ▸ (List.dropWhile_suffix _).sublist
    have hzxs : z ∈ xs := hsub.mem (List.mem_cons_self z d)
    have hxz : key x < key z :=
      lt_of_le_of_ne (hsx z hzxs) fun e => hzx (by simp [e.symm])
    rw [hd] at hy
    rcases List.mem_cons.mp hy with h | h
    · exact h ▸ hxz
    · exact hxz.trans_le ((List.pairwise_cons.mp (hs.sublist hsub)).1 y h)

/-- Over a list with nondecreasing keys, each group of `groupPairs` equals
the filter of the whole list by the group's key. -/
theorem groupPairs_filter {α : Type*} (key : α → Nat) : (l : List α) →
    List.Pairwise (fun a b => key a ≤ key b) l →
    ∀ p ∈ groupPairs key l, p.1 :: p.2 = l.filter fun y => key y == key p.1
  | [], _ => by simp [groupPairs]
  | x :: xs, hs => by
    rw [groupPairs_cons]
    have hsx : ∀ y ∈ xs, key x ≤ key y := (List.pairwise_cons.mp hs).1
    have hs' : List.Pairwise (fun a b => key a ≤ key b) xs := (List.pairwise_cons.mp hs).2
    have hgt := dropWhile_keys_gt key x xs hsx hs'
    intro p hp
    rcases List.mem_cons.mp hp with h | h
    · subst h
      rw [List.filter_cons_of_pos (by simp)]
      have := takeWhile_eq_filter (fun y => key y == key x) xs fun y hy => by
        simpa using (hgt y hy).ne'
      simpa using this
    · have ih := groupPairs_filter key (xs.dropWhile fun y => key y == key x)
        (hs'.sublist (List.dropWhile_suffix _).sublist) p h
      rw [ih]
      have hmem : p.1 ∈ xs.dropWhile fun y => key y == key x := by
        have hinf := groupPairs_segment key _ p h
        exact hinf.sublist.mem (List.mem_cons_self p.1 p.2)
      have hxlt : key x < key p.1 := hgt p.1 hmem
      have htake : List.filter (fun y => key y == key p.1)
          (xs.takeWhile fun y => key y == key x) = [] := by
        apply List.filter_eq_nil_iff.mpr
        intro y hy
        have hk : key y = key x := by simpa using List.mem_takeWhile_imp hy
        simp [hk, hxlt.ne]
      rw [List.filter_cons_of_neg (by simpa using hxlt.ne)]
      conv_rhs => rw [← List.takeWhile_append_dropWhile
        (p := fun y => key y == key x) (l := xs)]
      rw [List.filter_append, htake, List.nil_append]
termination_by l => l.length
decreasing_by all_goals exact dropWhile_length_lt_cons _ x xs

/-- `dedup` of a run of `k`s followed by a list not containing `k`. -/
theorem dedup_cons_run {k : Nat} : ∀ (t m : List Nat), (∀ a ∈ t, a = k) → k ∉ m →
    (k :: (t ++ m)).dedup = k :: m.dedup
  | [], m, _, hm => by
    rw [List.nil_append, List.dedup_cons_of_not_mem hm]
  | a :: t', m, ht, hm => by
    have ha : a = k := ht a (List.mem_cons_self a t')
    subst ha
    rw [List.cons_append, List.dedup_cons_of_mem (List.mem_cons_self a _),
      dedup_cons_run t' m (fun b hb => ht b (List.mem_cons_of_mem a hb)) hm]

/-- Over a list with nondecreasing keys, the keys of the group heads are
exactly the deduplicated key sequence of the list. -/
theorem groupPairs_heads {α : Type*} (key : α → Nat) : (l : List α) →
    List.Pairwise (fun a b => key a ≤ key b) l →
    (groupPairs key l).map (fun p => key p.1) = (l.map key).dedup
  | [], _ => by simp [groupPairs]
  | x :: xs, hs => by
    rw [groupPairs_cons, List.map_cons]
    have hsx : ∀ y ∈ xs, key x ≤ key y := (List.pairwise_cons.mp hs).1
    have hs' : List.Pairwise (fun a b => key a ≤ key b) xs := (List.pairwise_cons.mp hs).2
    have hgt := dropWhile_keys_gt key x xs hsx hs'
    rw [groupPairs_heads key _ (hs'.sublist (List.dropWhile_suffix _).sublist)]
    conv_rhs => rw [← List.takeWhile_append_dropWhile
      (p := fun y => key y == key x) (l := xs)]
    rw [List.map_cons, List.map_append,
      dedup_cons_run ((xs.takeWhile fun y => key y == key x).map key)
        ((xs.dropWhile fun y => key y == key x).map key)
        (fun a ha => by
          rcases List.mem_map.mp ha with ⟨y, hy, rfl⟩
          simpa using List.mem_takeWhile_imp hy)
        (fun hmem => by
          rcases List.mem_map.mp hmem with ⟨y, hy, he⟩
          exact absurd he.symm (hgt y hy).ne)]
termination_by l => l.length
decreasing_by exact dropWhile_length_lt_cons _ x xs

/-- `groupPairs` commutes with mapping a key-preserving function over the
list. -/
theorem groupPairs_map {α β : Type*} (keyA : α → Nat) (keyB : β → Nat) (f : α → β)
    (hk : ∀ a, keyB (f a) = keyA a) : (l : List α) →
    groupPairs keyB (l.map f) = (groupPairs keyA l).map fun p => (f p.1, p.2.map f)
  | [] => by simp [groupPairs]
  | x :: xs => by
    rw [List.map_cons, groupPairs_cons, groupPairs_cons]
    have hpred : ((fun y => keyB y == keyB (f x)) ∘ f) = fun y => keyA y == keyA x := by
      funext y
      simp [hk]
    rw [List.takeWhile_map, List.dropWhile_map, hpred,
      groupPairs_map keyA keyB f hk (xs.dropWhile _)]
    simp
termination_by l => l.length
decreasing_by exact dropWhile_length_lt_cons _ x xs

/-- Sorting by `keyLe k₁ k₂` makes the primary keys nondecreasing. -/
theorem sorted_keys_of_sorted_keyLe {α : Type*} {β : Type*} [LinearOrder β]
    {k₁ : α → Nat} {k₂ : α → β} {l : List α} (h : List.Sorted (keyLe k₁ k₂) l) :
    List.Pairwise (fun a b => k₁ a ≤ k₁ b) l :=
  h.imp fun hab => by
    rcases hab with h | ⟨e, _⟩
    · exact le_of_lt h
    · exact le_of_eq e

/-- In a list sorted by a reflexive transitive relation, every element is
related to the last element. -/
theorem sorted_le_getLastD {α : Type*} {r : α → α → Prop} [IsTrans α r]
    (hrefl : ∀ a, r a a) : (x : α) → (g : List α) → List.Sorted r (x :: g) →
    ∀ y ∈ x :: g, r y (g.getLastD x)
  | x, [], _ => by
    intro y hy
    rcases List.mem_singleton.mp hy with rfl
    simpa using hrefl y
  | x, z :: g', hs => by
    intro y hy
    rw [List.getLastD_cons]
    rcases List.mem_cons.mp hy with rfl | hy'
    · have hxz : r y z := List.rel_of_sorted_cons hs z (List.mem_cons_self z g')
      have hlast := sorted_le_getLastD hrefl z g' hs.of_cons z (List.mem_cons_self z g')
      exact Trans.trans hxz hlast
    · exact sorted_le_getLastD hrefl z g' hs.of_cons y hy'

/-- `max?` of a list of naturals only depends on the multiset of
elements. -/
theorem perm_max?_eq {l₁ l₂ : List Nat} (h : l₁.Perm l₂) : l₁.max? = l₂.max? := by
  cases h1 : l₁.max? with
  | none =>
    rw [List.max?_eq_none_iff] at h1
    subst h1
    rw [List.max?_eq_none_iff.mpr h.nil_eq.symm]
  | some a =>
    rw [List.max?_eq_some_iff'] at h1
    exact (List.max?_eq_some_iff'.mpr
      ⟨h.mem_iff.mp h1.1, fun b hb => h1.2 b (h.mem_iff.mpr hb)⟩).symm

/-! ## The claims -/

/-- **C1**: on the input Loan `{loanId=1, loanAmount=100}` and the two
repayments `(1, 1, 50, 2021-01-01)` and `(1, 2, 30, 2021-02-01)`, the
join-sort-group-reduce pipeline `repayments_proc` produces exactly one
summary row with `loanId=1`, `repaidDate=2021-02-01` (max),
`totalPaymentWithinSchedule=80` (sum), `loanAmount=100` (first),
`scheduleOrder=2` (last). -/
theorem scenario_pipeline_output :
    repayments_proc [scenarioLoan] [scenarioRep1, scenarioRep2] =
      [{ loanId := 1, repaidDate := 20210201, totalPaymentWithinSchedule := 80,
         loanAmount := 100, scheduleOrder := 2, status := "paid" }] := by
  decide

/-- **C5**: the sort stage orders any joined-row sequence by
`(loanId ascending, scheduleOrder ascending)`, is a permutation of its
input, and is stable: two rows with equal sort keys keep their relative
input order. -/
theorem sort_stage_sorted_stable (l : List JoinedRow) :
    List.Sorted (keyLe JoinedRow.loanId JoinedRow.scheduleOrder) (sortJoined l) ∧
    (sortJoined l).Perm l ∧
    ∀ a b : JoinedRow, a.loanId = b.loanId → a.scheduleOrder = b.scheduleOrder →
      List.Sublist [a, b] l → List.Sublist [a, b] (sortJoined l) := by
  refine ⟨List.sorted_insertionSort _ l, List.perm_insertionSort _ l, ?_⟩
  intro a b h1 h2 hsub
  exact List.pair_sublist_insertionSort (Or.inr ⟨h1, le_of_eq h2⟩) hsub

/-- Witness for the sort-stage theorem: a concrete two-row list whose rows
tie on both sort keys stays in input order. -/
theorem sort_stage_sorted_stable_witness :
    List.Sublist [mkJoined scenarioLoan scenarioRep1, mkJoined scenarioLoan scenarioRep1b]
      (sortJoined [mkJoined scenarioLoan scenarioRep1,
        mkJoined scenarioLoan scenarioRep1b]) :=
  (sort_stage_sorted_stable _).2.2 _ _ rfl rfl (List.Sublist.refl _)

/-- **C6**: in every group produced by the pipeline's group stage, the
first row (used by the `first` reducer) attains the minimum
`scheduleOrder` of the group and the last row (used by the `last`
reducers) attains the maximum, consistently with the
`(loanId, scheduleOrder)` sort. -/
theorem first_last_min_max (loans : List Loan) (reps : List Repayment)
    (p : JoinedRow × List JoinedRow)
    (hp : p ∈ groupPairs JoinedRow.loanId (sortJoined (innerJoin loans reps))) :
    p.2.getLastD p.1 ∈ p.1 :: p.2 ∧
    (∀ y ∈ p.1 :: p.2, p.1.scheduleOrder ≤ y.scheduleOrder) ∧
    (∀ y ∈ p.1 :: p.2, y.scheduleOrder ≤ (p.2.getLastD p.1).scheduleOrder) := by
  have hsorted : List.Sorted (keyLe JoinedRow.loanId JoinedRow.scheduleOrder) (p.1 :: p.2) :=
    List.Pairwise.sublist (groupPairs_segment _ _ p hp).sublist
      (List.sorted_insertionSort _ _)
  have hid := groupPairs_mem_key JoinedRow.loanId _ p hp
  have hid' : ∀ y ∈ p.1 :: p.2, y.loanId = p.1.loanId := by
    intro y hy
    rcases List.mem_cons.mp hy with rfl | hy'
    · rfl
    · exact hid y hy'
  refine ⟨List.getLastD_mem_cons p.2 p.1, ?_, ?_⟩
  · intro y hy
    rcases List.mem_cons.mp hy with rfl | hy'
    · exact le_refl _
    · rcases List.rel_of_sorted_cons hsorted y hy' with hlt | ⟨_, hle⟩
      · exact absurd (hid y hy') hlt.ne'
      · exact hle
  · intro y hy
    have hrel := sorted_le_getLastD (keyLe_refl _ _) p.1 p.2 hsorted y hy
    have hidlast : (p.2.getLastD p.1).loanId = p.1.loanId :=
      hid' _ (List.getLastD_mem_cons p.2 p.1)
    rcases hrel with hlt | ⟨_, hle⟩
    · exact absurd ((hid' y hy).trans hidlast.symm) hlt.ne
    · exact hle

/-- Witness for the first/last reducer theorem: the unique group of the
worked scenario. -/
theorem first_last_min_max_witness :
    (mkJoined scenarioLoan scenarioRep1, [mkJoined scenarioLoan scenarioRep2]).2.getLastD
        (mkJoined scenarioLoan scenarioRep1, [mkJoined scenarioLoan scenarioRep2]).1 ∈
      (mkJoined scenarioLoan scenarioRep1, [mkJoined scenarioLoan scenarioRep2]).1 ::
        (mkJoined scenarioLoan scenarioRep1, [mkJoined scenarioLoan scenarioRep2]).2 :=
  (first_last_min_max [scenarioLoan] [scenarioRep1, scenarioRep2] _ (by decide)).1

/-- **C9**: the full pipeline is a deterministic pure function of its
inputs: equal inputs give identical summary lists. -/
theorem pipeline_deterministic (loans₁ loans₂ : List Loan) (reps₁ reps₂ : List Repayment)
    (hl : loans₁ = loans₂) (hr : reps₁ = reps₂) :
    repayments_proc loans₁ reps₁ = repayments_proc loans₂ reps₂ := by
  rw [hl, hr]

/-- Witness for determinism at the worked scenario. -/
theorem pipeline_deterministic_witness :
    repayments_proc [scenarioLoan] [scenarioRep1, scenarioRep2] =
      repayments_proc [scenarioLoan] [scenarioRep1, scenarioRep2] :=
  pipeline_deterministic _ _ _ _ rfl rfl

/-- **C7**: for every partition of the ranking-within-partition pass of
`rownum_stmt` (`ROW_NUMBER() OVER (PARTITION BY loanId ORDER BY loanAmount
DESC)`), a partition with `k` rows gets exactly the ranks `{1, ..., k}`,
with no gaps and no repeats. -/
theorem rownum_ranks_exact (loans : List Loan) (k : Nat) :
    ((rownumPartition loans k).map Prod.snd).toFinset =
      Finset.Icc 1 (loans.filter fun l => l.loanId == k).length ∧
    ((rownumPartition loans k).map Prod.snd).Nodup := by
  have hmap : (rownumPartition loans k).map Prod.snd =
      List.range' 1 ((loans.filter fun l => l.loanId == k).insertionSort amountDesc).length := by
    show (((loans.filter fun l => l.loanId == k).insertionSort amountDesc).zip
      (List.range' 1
        ((loans.filter fun l => l.loanId == k).insertionSort amountDesc).length)).map
          Prod.snd = _
    exact List.map_snd_zip _ _ (by rw [List.length_range'])
  rw [hmap, List.length_insertionSort]
  constructor
  · ext m
    simp only [List.mem_toFinset, List.mem_range'_1, Finset.mem_Icc]
    omega
  · exact List.nodup_range' 1 _

/-- **C8**: projecting a table onto an ordered sequence of column names
returns a table with exactly those columns, in that order, with their data
taken from the input table, when all names are present; it fails with
`ColumnNotFoundError` when any name is missing. -/
theorem projectCols_exact_or_error (t : Table) (names : List String) :
    ((∀ n ∈ names, ∃ c ∈ t, c.1 = n) →
      ∃ t', projectCols t names = Except.ok t' ∧ t'.map Prod.fst = names ∧
        ∀ c ∈ t', c ∈ t) ∧
    ((∃ n ∈ names, ∀ c ∈ t, c.1 ≠ n) →
      projectCols t names = Except.error ProjError.ColumnNotFoundError) := by
  induction names with
  | nil =>
    refine ⟨fun _ => ⟨[], rfl, rfl, by simp⟩, ?_⟩
    rintro ⟨n, hn, -⟩
    exact absurd hn (List.not_mem_nil n)
  | cons n ns ih =>
    constructor
    · intro hall
      obtain ⟨c, hct, hcn⟩ := hall n (List.mem_cons_self n ns)
      have hfind : (t.find? fun c => c.1 == n).isSome :=
        List.find?_isSome.mpr ⟨c, hct, by simp [hcn]⟩
      obtain ⟨c₀, hc₀⟩ := Option.isSome_iff_exists.mp hfind
      obtain ⟨t'', ht'', hmap, hsub⟩ := ih.1 fun m hm => hall m (List.mem_cons_of_mem n hm)
      have hc₀n : c₀.1 = n := by simpa using List.find?_some hc₀
      refine ⟨c₀ :: t'', ?_, ?_, ?_⟩
      · simp only [projectCols]
        rw [hc₀, ht'']
      · rw [List.map_cons, hmap, hc₀n]
      · intro c' hc'
        rcases List.mem_cons.mp hc' with rfl | hc''
        · exact List.mem_of_find?_eq_some hc₀
        · exact hsub c' hc''
    · rintro ⟨m, hm, hmiss⟩
      rcases List.mem_cons.mp hm with rfl | hm'
      · have hfind : (t.find? fun c => c.1 == m) = none :=
          List.find?_eq_none.mpr fun c hc => by simpa using hmiss c hc
        simp only [projectCols]
        rw [hfind]
      · cases hf : t.find? fun c => c.1 == n with
        | none =>
          simp only [projectCols]
          rw [hf]
        | some c₀ =>
          have herr := ih.2 ⟨m, hm', hmiss⟩
          simp only [projectCols]
          rw [hf, herr]

/-- Witness for the projection theorem: projecting the sample table onto
`["status", "loanId"]` succeeds with exactly those columns in order. -/
theorem projectCols_exact_or_error_witness :
    ∃ t', projectCols sampleTable ["status", "loanId"] = Except.ok t' ∧
      t'.map Prod.fst = ["status", "loanId"] ∧ ∀ c ∈ t', c ∈ sampleTable :=
  (projectCols_exact_or_error sampleTable ["status", "loanId"]).1 (by decide)

/-- The cardinality of a list's `toFinset` is its `dedup` length. -/
theorem toFinset_card_eq_dedup_length (l : List Nat) : l.toFinset.card = l.dedup.length := by
  have h : l.dedup.toFinset = l.toFinset := List.toFinset.ext fun x => List.mem_dedup
  rw [← List.toFinset_card_of_nodup l.nodup_dedup, h]

/-- Number of groups over a key-sorted list = number of distinct keys. -/
theorem groupPairs_length_distinct {α : Type*} (key : α → Nat) (l : List α)
    (hs : List.Pairwise (fun a b => key a ≤ key b) l) :
    (groupPairs key l).length = (l.map key).toFinset.card := by
  rw [toFinset_card_eq_dedup_length, ← groupPairs_heads key l hs, List.length_map]

/-- The `loanId`s occurring in the inner join output are those present in
both input tables. -/
theorem innerJoin_ids (loans : List Loan) (reps : List Repayment) :
    ((innerJoin loans reps).map JoinedRow.loanId).toFinset =
      (loans.map Loan.loanId).toFinset ∩ (reps.map Repayment.loanId).toFinset := by
  ext k
  simp only [List.mem_toFinset, List.mem_map, innerJoin, List.mem_flatMap,
    Finset.mem_inter]
  constructor
  · rintro ⟨j, ⟨l, hl, r, hr, rfl⟩, rfl⟩
    rcases List.mem_filter.mp hr with ⟨hrr, hrl⟩
    exact ⟨⟨l, hl, rfl⟩, ⟨r, hrr, by simpa using hrl⟩⟩
  · rintro ⟨⟨l, hl, rfl⟩, ⟨r, hr, hrk⟩⟩
    have hrf : r ∈ reps.filter fun s => s.loanId == l.loanId :=
      List.mem_filter.mpr ⟨hr, by simp [hrk]⟩
    exact ⟨mkJoined l r, ⟨l, hl, r, hrf, rfl⟩, rfl⟩

/-- The `loanId`s occurring in the left join output are exactly the loan
table's `loanId`s. -/
theorem leftJoin_ids (loans : List Loan) (reps : List Repayment) :
    ((leftJoin loans reps).map JoinedRowL.loanId).toFinset =
      (loans.map Loan.loanId).toFinset := by
  ext k
  simp only [List.mem_toFinset, List.mem_map, leftJoin, List.mem_flatMap]
  constructor
  · rintro ⟨j, ⟨l, hl, hj⟩, rfl⟩
    refine ⟨l, hl, ?_⟩
    rcases hfil : reps.filter fun r => r.loanId == l.loanId with - | ⟨m, ms⟩
    · rw [hfil] at hj
      rcases List.mem_singleton.mp hj with rfl
      rfl
    · rw [hfil] at hj
      rcases List.mem_map.mp hj with ⟨r, hr, rfl⟩
      rfl
  · rintro ⟨l, hl, rfl⟩
    rcases hfil : reps.filter fun r => r.loanId == l.loanId with - | ⟨m, ms⟩
    · exact ⟨mkJoinedNone l, ⟨l, hl, by rw [hfil]; exact List.mem_singleton.mpr rfl⟩, rfl⟩
    · exact ⟨mkJoinedL l m,
        ⟨l, hl, by rw [hfil]; exact List.mem_map.mpr ⟨m, List.mem_cons_self m ms, rfl⟩⟩, rfl⟩

/-- **C2**: for every pair of input tables, the number of summary rows
equals the number of distinct `loanId` values in the join output: for the
inner-join pandas pipeline, the distinct `loanId`s present in both tables;
for the left-join siuba pipeline, the distinct loan `loanId`s. -/
theorem summary_count_distinct_ids (loans : List Loan) (reps : List Repayment) :
    (repayments_proc loans reps).length =
      ((loans.map Loan.loanId).toFinset ∩ (reps.map Repayment.loanId).toFinset).card ∧
    (siubaProc loans reps).length = (loans.map Loan.loanId).toFinset.card := by
  constructor
  · unfold repayments_proc
    have hs : List.Pairwise (fun a b => JoinedRow.loanId a ≤ JoinedRow.loanId b)
        (sortJoined (innerJoin loans reps)) :=
      sorted_keys_of_sorted_keyLe (List.sorted_insertionSort _ _)
    rw [List.length_map, groupPairs_length_distinct _ _ hs, ← innerJoin_ids loans reps]
    have hperm : (sortJoined (innerJoin loans reps)).Perm (innerJoin loans reps) :=
      List.perm_insertionSort _ _
    rw [List.toFinset_eq_of_perm _ _ (hperm.map _)]
  · unfold siubaProc
    have hs : List.Pairwise (fun a b => JoinedRowL.loanId a ≤ JoinedRowL.loanId b)
        (sortJoinedL (leftJoin loans reps)) :=
      sorted_keys_of_sorted_keyLe (List.sorted_insertionSort _ _)
    rw [List.length_map, groupPairs_length_distinct _ _ hs, ← leftJoin_ids loans reps]
    have hperm : (sortJoinedL (leftJoin loans reps)).Perm (leftJoin loans reps) :=
      List.perm_insertionSort _ _
    rw [List.toFinset_eq_of_perm _ _ (hperm.map _)]

/-- **C10**: the join renames the two `status` columns to `status_x` (loan
side) and `status_y` (repayment side), and the pipeline's summary `status`
is reduced from the repayment side only: rewriting every loan's `status`
leaves the pipeline output unchanged. -/
theorem status_side_selection (loans : List Loan) (reps : List Repayment) (s : String) :
    (∀ (l : Loan) (r : Repayment),
      (mkJoined l r).status_x = l.status ∧ (mkJoined l r).status_y = r.status) ∧
    repayments_proc (loans.map fun l => { l with status := s }) reps =
      repayments_proc loans reps := by
  refine ⟨fun l r => ⟨rfl, rfl⟩, ?_⟩
  have hjoin : innerJoin (loans.map fun l => { l with status := s }) reps =
      (innerJoin loans reps).map fun j => { j with status_x := s } := by
    unfold innerJoin
    rw [List.flatMap_map, List.map_flatMap]
    congr 1
    funext l
    rw [List.map_map]
    rfl
  have hsort : sortJoined ((innerJoin loans reps).map fun j => { j with status_x := s }) =
      (sortJoined (innerJoin loans reps)).map fun j => { j with status_x := s } := by
    unfold sortJoined
    exact (List.map_insertionSort
      (keyLe JoinedRow.loanId JoinedRow.scheduleOrder)
      (keyLe JoinedRow.loanId JoinedRow.scheduleOrder)
      (fun j => { j with status_x := s }) (innerJoin loans reps)
      fun a _ b _ => Iff.rfl).symm
  have hgroup := groupPairs_map JoinedRow.loanId JoinedRow.loanId
    (fun j => { j with status_x := s }) (fun a => rfl)
    (sortJoined (innerJoin loans reps))
  have hsumm : ∀ (x : JoinedRow) (g : List JoinedRow),
      summarize { x with status_x := s } (g.map fun j => { j with status_x := s }) =
        summarize x g := by
    intro x g
    have hlast : ∀ (g' : List JoinedRow) (x' : JoinedRow),
        ((g'.map fun j => { j with status_x := s }).getLastD { x' with status_x := s }) =
          { g'.getLastD x' with status_x := s } := by
      intro g'
      induction g' with
      | nil =>
        intro x'
        rfl
      | cons y ys ih =>
        intro x'
        rw [List.map_cons, List.getLastD_cons, List.getLastD_cons]
        exact ih y
    unfold summarize
    rw [List.foldl_map, List.map_map, hlast g x]
    rfl
  unfold repayments_proc
  rw [hjoin, hsort, hgroup, List.map_map]
  exact List.map_congr_left fun p hp => hsumm p.1 p.2

/-- **C4**: the translated declarative statement `agg_stmt` — join on
`loanId`, group by `loanId`, `max(repaidDate)`,
`sum(totalPaymentWithinSchedule)` — denotes, for every input, exactly the
pipeline's summary rows restricted to the statement's columns, row for
row. -/
theorem agg_stmt_refines_pipeline (loans : List Loan) (reps : List Repayment) :
    (repayments_proc loans reps).map SummaryRow.toAgg = aggStmtDenote loans reps := by
  have hsorted : List.Sorted (keyLe JoinedRow.loanId JoinedRow.scheduleOrder)
      (sortJoined (innerJoin loans reps)) := List.sorted_insertionSort _ _
  have hpair : List.Pairwise (fun a b => JoinedRow.loanId a ≤ JoinedRow.loanId b)
      (sortJoined (innerJoin loans reps)) := sorted_keys_of_sorted_keyLe hsorted
  have hperm : (sortJoined (innerJoin loans reps)).Perm (innerJoin loans reps) :=
    List.perm_insertionSort _ _
  have hkeys : ((innerJoin loans reps).map JoinedRow.loanId).dedup.insertionSort (· ≤ ·) =
      (groupPairs JoinedRow.loanId (sortJoined (innerJoin loans reps))).map
        fun p => p.1.loanId := by
    rw [groupPairs_heads _ _ hpair]
    have hs1 : List.Sorted (· ≤ ·)
        (((innerJoin loans reps).map JoinedRow.loanId).dedup.insertionSort (· ≤ ·)) :=
      List.sorted_insertionSort _ _
    have hs2 : List.Sorted (· ≤ ·)
        ((sortJoined (innerJoin loans reps)).map JoinedRow.loanId).dedup :=
      List.Pairwise.sublist (List.dedup_sublist _) (List.pairwise_map.mpr hpair)
    have hn1 : (((innerJoin loans reps).map JoinedRow.loanId).dedup.insertionSort
        (· ≤ ·)).Nodup :=
      (List.perm_insertionSort _ _).symm.nodup (List.nodup_dedup _)
    have hn2 : ((sortJoined (innerJoin loans reps)).map JoinedRow.loanId).dedup.Nodup :=
      List.nodup_dedup _
    have hfin : (((innerJoin loans reps).map JoinedRow.loanId).dedup.insertionSort
          (· ≤ ·)).toFinset =
        ((sortJoined (innerJoin loans reps)).map JoinedRow.loanId).dedup.toFinset := by
      have e1 := List.toFinset_eq_of_perm _ _
        (List.perm_insertionSort (· ≤ ·) ((innerJoin loans reps).map JoinedRow.loanId).dedup)
      have e2 : ((innerJoin loans reps).map JoinedRow.loanId).dedup.toFinset =
          ((innerJoin loans reps).map JoinedRow.loanId).toFinset :=
        List.toFinset.ext fun x => List.mem_dedup
      have e3 : ((sortJoined (innerJoin loans reps)).map JoinedRow.loanId).dedup.toFinset =
          ((sortJoined (innerJoin loans reps)).map JoinedRow.loanId).toFinset :=
        List.toFinset.ext fun x => List.mem_dedup
      have e4 := List.toFinset_eq_of_perm _ _ (hperm.map JoinedRow.loanId)
      rw [e1, e2, e3, e4]
    exact List.eq_of_perm_of_sorted
      (List.perm_of_nodup_nodup_toFinset_eq hn1 hn2 hfin) hs1 hs2
  unfold repayments_proc aggStmtDenote
  rw [hkeys, List.map_map, List.map_map]
  apply List.map_congr_left
  intro p hp
  have hfil := groupPairs_filter _ _ hpair p hp
  have hfperm : ((innerJoin loans reps).filter fun y => y.loanId == p.1.loanId).Perm
      (p.1 :: p.2) := by
    rw [hfil]
    exact (hperm.filter _).symm
  have hmax : (((innerJoin loans reps).filter fun y => y.loanId == p.1.loanId).map
      JoinedRow.repaidDate).max? =
      some (p.2.foldl (fun acc y => max acc y.repaidDate) p.1.repaidDate) := by
    rw [perm_max?_eq (hfperm.map JoinedRow.repaidDate), List.map_cons, List.max?_cons',
      List.foldl_map]
  have hsum : (((innerJoin loans reps).filter fun y => y.loanId == p.1.loanId).map
      JoinedRow.totalPaymentWithinSchedule).sum =
      p.1.totalPaymentWithinSchedule +
        (p.2.map JoinedRow.totalPaymentWithinSchedule).sum := by
    rw [(hfperm.map JoinedRow.totalPaymentWithinSchedule).sum_eq, List.map_cons,
      List.sum_cons]
  simp only [Function.comp_apply, SummaryRow.toAgg, summarize, hmax, hsum]

/-- `flatMap` only depends on the function's values on list members. -/
theorem flatMap_congr {α β : Type*} {f g : α → List β} : ∀ {l : List α},
    (∀ a ∈ l, f a = g a) → l.flatMap f = l.flatMap g
  | [], _ => rfl
  | x :: xs, h => by
    rw [List.flatMap_cons, List.flatMap_cons, h x (List.mem_cons_self x xs),
      flatMap_congr fun a ha => h a (List.mem_cons_of_mem x ha)]

/-- When every loan has at least one matching repayment, the left join is
the inner join viewed through `JoinedRow.toL`. -/
theorem leftJoin_eq_map_toL (loans : List Loan) (reps : List Repayment)
    (hmatch : ∀ l ∈ loans, ∃ r ∈ reps, r.loanId = l.loanId) :
    leftJoin loans reps = (innerJoin loans reps).map JoinedRow.toL := by
  unfold leftJoin innerJoin
  rw [List.map_flatMap]
  apply flatMap_congr
  intro l hl
  obtain ⟨r, hr, hrl⟩ := hmatch l hl
  have hmem : r ∈ reps.filter fun s => s.loanId == l.loanId :=
    List.mem_filter.mpr ⟨hr, by simp [hrl]⟩
  rw [List.map_map]
  cases hfil : reps.filter fun s => s.loanId == l.loanId with
  | nil =>
    rw [hfil] at hmem
    cases hmem
  | cons m ms =>
    rfl

/-- Sorting the left-joined view of the inner join commutes with
`JoinedRow.toL`. -/
theorem sortJoinedL_map_toL (j : List JoinedRow) :
    sortJoinedL (j.map JoinedRow.toL) = (sortJoined j).map JoinedRow.toL := by
  unfold sortJoined sortJoinedL
  refine (List.map_insertionSort
    (keyLe JoinedRow.loanId JoinedRow.scheduleOrder)
    (keyLe JoinedRowL.loanId schedKey)
    JoinedRow.toL j ?_).symm
  intro a _ b _
  constructor
  · rintro (h | ⟨e, h⟩)
    · exact Or.inl h
    · exact Or.inr ⟨e, show ((a.scheduleOrder : Int) : WithTop Int) ≤
        ((b.scheduleOrder : Int) : WithTop Int) from WithTop.coe_le_coe.mpr h⟩
  · rintro (h | ⟨e, h⟩)
    · exact Or.inl h
    · exact Or.inr ⟨e, WithTop.coe_le_coe.mp (show ((a.scheduleOrder : Int) : WithTop Int) ≤
        ((b.scheduleOrder : Int) : WithTop Int) from h)⟩

/-- The siuba summary of a group seen through `JoinedRow.toL` agrees, on
the shared core columns, with the pandas summary of the group. -/
theorem summarizeS_toL_core (x : JoinedRow) (g : List JoinedRow) :
    (summarizeS (JoinedRow.toL x) (g.map JoinedRow.toL)).core = (summarize x g).core := by
  have hrd : (JoinedRowL.repaidDate ∘ JoinedRow.toL) = (some ∘ JoinedRow.repaidDate) := rfl
  have htp : (JoinedRowL.totalPaymentWithinSchedule ∘ JoinedRow.toL) =
      (some ∘ JoinedRow.totalPaymentWithinSchedule) := rfl
  unfold summarizeS summarize SummaryRowS.core SummaryRow.core
  rw [List.getLastD_map JoinedRow.toL g x]
  have hfm1 : (JoinedRow.toL x :: g.map JoinedRow.toL).filterMap JoinedRowL.repaidDate =
      x.repaidDate :: g.map JoinedRow.repaidDate := by
    rw [List.filterMap_cons_some
        (show JoinedRowL.repaidDate (JoinedRow.toL x) = some x.repaidDate from rfl),
      List.filterMap_map, hrd, List.filterMap_eq_map]
  have hfm2 : (JoinedRow.toL x :: g.map JoinedRow.toL).filterMap
        JoinedRowL.totalPaymentWithinSchedule =
      x.totalPaymentWithinSchedule :: g.map JoinedRow.totalPaymentWithinSchedule := by
    rw [List.filterMap_cons_some
        (show JoinedRowL.totalPaymentWithinSchedule (JoinedRow.toL x) =
          some x.totalPaymentWithinSchedule from rfl),
      List.filterMap_map, htp, List.filterMap_eq_map]
  rw [hfm1, hfm2, List.max?_cons', List.foldl_map, List.sum_cons]
  rfl

/-- **C3** (counterexample): at the concrete input with one loan and two
repayments whose statuses differ, the first pandas pipeline (status =
`last`) and the second pandas variant (status = `first`) already disagree,
so the three expressions of the pipeline do not produce the same summary
rows. -/
theorem three_variants_not_equal :
    ¬((repayments_proc [scenarioLoan] [scenarioRepLate, scenarioRep2]).map
          SummaryRow.toCommon =
        (repayments_agg2 [scenarioLoan] [scenarioRepLate, scenarioRep2]).map
          SummaryRow.toCommon ∧
      (repayments_agg2 [scenarioLoan] [scenarioRepLate, scenarioRep2]).map
          SummaryRow.toCommon =
        (siubaProc [scenarioLoan] [scenarioRepLate, scenarioRep2]).map
          SummaryRowS.toCommon) := by
  rintro ⟨h1, -⟩
  exact absurd (congrArg (List.map CommonRow.status) h1) (by decide)

/-- **C3** (amended): restricted to the columns on which the three
expressions use the same reducers — `loanId`, `max(repaidDate)`,
`sum(totalPaymentWithinSchedule)` and last `scheduleOrder` — the three
variants agree, provided every loan has at least one matching repayment
(so that the inner and left joins coincide); they genuinely differ on the
`status` column (`last` vs `first`), on the `loanAmount` column (`first`
vs `mean`), and on loans without repayments (inner vs left join). -/
theorem variants_agree_on_core_columns (loans : List Loan) (reps : List Repayment)
    (hmatch : ∀ l ∈ loans, ∃ r ∈ reps, r.loanId = l.loanId) :
    (repayments_proc loans reps).map SummaryRow.core =
      (repayments_agg2 loans reps).map SummaryRow.core ∧
    (repayments_proc loans reps).map SummaryRow.core =
      (siubaProc loans reps).map SummaryRowS.core := by
  constructor
  · unfold repayments_proc repayments_agg2
    rw [List.map_map, List.map_map]
    apply List.map_congr_left
    intro p hp
    rfl
  · have hgroup := groupPairs_map JoinedRow.loanId JoinedRowL.loanId JoinedRow.toL
      (fun a => rfl) (sortJoined (innerJoin loans reps))
    unfold repayments_proc siubaProc
    rw [leftJoin_eq_map_toL loans reps hmatch, sortJoinedL_map_toL, hgroup,
      List.map_map, List.map_map, List.map_map]
    apply List.map_congr_left
    intro p hp
    exact (summarizeS_toL_core p.1 p.2).symm

/-- Witness for the amended three-variant agreement at the worked
scenario, where the single loan has two matching repayments. -/
theorem variants_agree_on_core_columns_witness :
    (repayments_proc [scenarioLoan] [scenarioRep1, scenarioRep2]).map SummaryRow.core =
      (siubaProc [scenarioLoan] [scenarioRep1, scenarioRep2]).map SummaryRowS.core :=
  (variants_agree_on_core_columns [scenarioLoan] [scenarioRep1, scenarioRep2]
    (by decide)).2

end TranslateSql
